import Mathlib

/-!
Shallow embedding of the RAG evaluation scripts of the repository
(`evaluate_retriever_exact_match6.py`, `evaulate_retriever.py`,
`evaulate_final5.py`, `evaluate_reranker4.py`) and proofs about them.

Python strings are modelled as `List Char`; Python's substring test
(`in`) is `pySubstr`; `float` scores coming back from external
libraries (ROUGE, latency clocks) are modelled as `ℚ` values attached to
the inputs, since the scripts only compare and aggregate them.
-/

namespace RagEval

/-- A Python string. -/
abbrev PStr := List Char

/-- Characters treated as path separators by `os.path.basename` on the
platform the scripts target (Windows `ntpath`: both forward and backward
slash split components). -/
def isPathSep (c : Char) : Bool := c = '/' || c = '\\'

/-- Python `os.path.basename`: the part of the path after the last separator. -/
def pyBasename (s : PStr) : PStr :=
  s.foldl (fun acc c => if isPathSep c then [] else acc ++ [c]) []

/-- The whitespace characters stripped by Python's `str.strip()` /
split on by `str.split()` (space, tab, newline, vertical tab, form feed,
carriage return). -/
def pyIsSpace (c : Char) : Bool :=
  c = ' ' || c = '\t' || c = '\n' || c = '\x0b' || c = '\x0c' || c = '\r'

/-- Python `str.strip()`: drop leading and trailing whitespace. -/
def pyStrip (s : PStr) : PStr :=
  (s.dropWhile pyIsSpace).reverse.dropWhile pyIsSpace |>.reverse

/-- Python `str.lower()`, restricted to the ASCII case mapping the
evaluation data exercises. -/
def pyLower (s : PStr) : PStr := s.map Char.toLower

/-- Function `normalize_filename` from `evaluate_retriever_exact_match6.py`:
non-strings (e.g. pandas NaN cells, modelled as `none`) become `""`;
a string becomes `os.path.basename(path).strip().lower()`. -/
def normalize_filename : Option PStr → PStr
  | none => []
  | some s => pyLower (pyStrip (pyBasename s))

/-- Predicate `pyStartsWith t r = true` iff `r` starts with `t`. -/
def pyStartsWith : PStr → PStr → Bool
  | [], _ => true
  | _ :: _, [] => false
  | t :: ts, r :: rs => (t == r) && pyStartsWith ts rs

/-- Python's `t in r` on strings: `t` occurs as a contiguous substring
of `r`. -/
def pySubstr (t : PStr) : PStr → Bool
  | [] => pyStartsWith t []
  | c :: rs => pyStartsWith t (c :: rs) || pySubstr t rs

/-- Function `check_source_match` from `evaluate_retriever_exact_match6.py`:
after normalisation, the two filenames match when one is a substring of
the other (`(t in r) or (r in t)`). -/
def check_source_match (target_path retrieved_path : Option PStr) : Bool :=
  let t := normalize_filename target_path
  let r := normalize_filename retrieved_path
  pySubstr t r || pySubstr r t

/-! ### The hybrid evaluation engine of `evaluate_retriever_exact_match6.py` -/

/-- Constant `SEMANTIC_THRESHOLD` from the configuration block. -/
def SEMANTIC_THRESHOLD : ℚ := 3 / 10

/-- A retrieved chunk as the evaluation loop sees it: its `source`
metadata entry (`doc.metadata.get("source", "")`, always a string), and
the ROUGE-L f-measure `scorer.score(ground_truth, doc.page_content)` that
the external scorer reports for it against the question's ground-truth
answer. -/
structure RDoc where
  source : PStr
  sem : ℚ

/-- One CSV row together with its retrieval result: the source-path cell
(`none` models a non-string cell such as pandas NaN) and the top-K
retrieved chunks in rank order. -/
structure HQuestion where
  target : Option PStr
  docs : List RDoc

/-- The per-document hit decision of the loop body (lines 89-114):
`src_match` is computed only when the CSV has a path column, and
`is_hit` is set by `if path_col and src_match: ... elif sem_match: ...`
where `sem_match = sem_score >= SEMANTIC_THRESHOLD`. -/
def is_hit (path_col : Bool) (target : Option PStr) (d : RDoc) : Bool :=
  let src_match := if path_col then check_source_match target (some d.source) else false
  let sem_match := decide (SEMANTIC_THRESHOLD ≤ d.sem)
  if path_col && src_match then true
  else if sem_match then true
  else false

/-- The rank loop with its `break`: starting at `rank`, return the
(0-based) rank of the first document that is a hit, or `none`. -/
def scanDocs (path_col : Bool) (target : Option PStr) : List RDoc → Nat → Option Nat
  | [], _ => none
  | d :: ds, rank =>
      if is_hit path_col target d then some rank
      else scanDocs path_col target ds (rank + 1)

/-- Declarative counterpart of the rank loop: the index of the first hit
among the docs, written as a structural recursion with no accumulator. -/
def firstHitRank (path_col : Bool) (target : Option PStr) : List RDoc → Option Nat
  | [] => none
  | d :: ds =>
      if is_hit path_col target d then some 0
      else (firstHitRank path_col target ds).map (· + 1)

/-- The accumulators `hits_1`, `hits_3`, `mrr_sum` of the evaluation. -/
structure HState where
  hits_1 : Nat
  hits_3 : Nat
  mrr_sum : ℚ

/-- Updating the accumulators for one question: on the first hit the code
sets `found_rank = rank + 1`, adds `1.0 / found_rank` to `mrr_sum`,
increments `hits_1` when `rank == 0`, increments `hits_3`, and breaks. -/
def process_question (path_col : Bool) (st : HState) (q : HQuestion) : HState :=
  match scanDocs path_col q.target q.docs 0 with
  | none => st
  | some rank =>
      { hits_1 := st.hits_1 + (if rank = 0 then 1 else 0)
        hits_3 := st.hits_3 + 1
        mrr_sum := st.mrr_sum + 1 / ((rank : ℚ) + 1) }

/-- The main loop of `run_hybrid_evaluation` over all questions. -/
def run_hybrid_evaluation (path_col : Bool) (qs : List HQuestion) : HState :=
  qs.foldl (process_question path_col) ⟨0, 0, 0⟩

/-- Ratio `hr_1 = hits_1 / total`. -/
def hitRate1 (path_col : Bool) (qs : List HQuestion) : ℚ :=
  ((run_hybrid_evaluation path_col qs).hits_1 : ℚ) / (qs.length : ℚ)

/-- Ratio `hr_3 = hits_3 / total`. -/
def hitRate3 (path_col : Bool) (qs : List HQuestion) : ℚ :=
  ((run_hybrid_evaluation path_col qs).hits_3 : ℚ) / (qs.length : ℚ)

/-- Ratio `mrr = mrr_sum / total`. -/
def mrr (path_col : Bool) (qs : List HQuestion) : ℚ :=
  (run_hybrid_evaluation path_col qs).mrr_sum / (qs.length : ℚ)

/-- The reciprocal rank a question contributes to `mrr_sum`: `1/(i+1)`
for the first hit at 0-based rank `i`, and `0` when no hit occurs. -/
def reciprocalRank (path_col : Bool) (q : HQuestion) : ℚ :=
  match firstHitRank path_col q.target q.docs with
  | some i => 1 / ((i : ℚ) + 1)
  | none => 0

/-! ### The Recall@K evaluation of `evaulate_retriever.py` (`evaluate_db`) -/

/-- One item of `eval_data` together with its retrieval result: the
`source_doc` cell of the CSV row and the `source` metadata entries of
the `max(K_VALUES)` retrieved documents, in rank order
(`doc.metadata.get('source', '')`, always a string). -/
structure EvalItem where
  source_doc : PStr
  retrieved : List PStr

/-- Constant `K_VALUES = [1, 3, 4, 5]` from the configuration block. -/
def K_VALUES : List Nat := [1, 3, 4, 5]

/-- The per-document match test of the inner loop (lines 125-130):
`target_clean in retrieved_doc or retrieved_doc in target_clean`. -/
def matchesTarget (target_clean retrieved_doc : PStr) : Bool :=
  pySubstr target_clean retrieved_doc || pySubstr retrieved_doc target_clean

/-- The `match_found` flag for one question at cut-off `k`:
basenames are taken (`target_clean`, `retrieved_sources`), the list is
cut to the top `k`, and the inner loop sets the flag on the first
match and breaks. -/
def match_found (item : EvalItem) (k : Nat) : Bool :=
  let target_clean := pyBasename item.source_doc
  let retrieved_sources := item.retrieved.map pyBasename
  (retrieved_sources.take k).any (fun r => matchesTarget target_clean r)

/-- The `results[k]["hits"]` accumulator of `evaluate_db`: one
increment per question whose `match_found` is set at cut-off `k`. -/
def hitsAt (data : List EvalItem) (k : Nat) : Nat :=
  data.foldl (fun acc item => if match_found item k then acc + 1 else acc) 0

/-- The printed `hit_rate` for cut-off `k`: `hits / total_questions`. -/
def recallAt (data : List EvalItem) (k : Nat) : ℚ :=
  (hitsAt data k : ℚ) / (data.length : ℚ)

/-! ### The end-to-end benchmark of `evaulate_final5.py` -/

/-- The characters of Python's `string.punctuation`: the ASCII ranges
33-47, 58-64, 91-96 and 123-126. -/
def isPunct (c : Char) : Bool :=
  let n := c.toNat
  (33 ≤ n && n ≤ 47) || (58 ≤ n && n ≤ 64) || (91 ≤ n && n ≤ 96) || (123 ≤ n && n ≤ 126)

/-- Python `str.split()` with no argument: the maximal runs of
non-whitespace characters, in order; runs of whitespace never yield
empty tokens. -/
def pySplit (s : PStr) : List PStr :=
  (s.splitOnP pyIsSpace).filter (fun t => !t.isEmpty)

/-- Python `" ".join(tokens)`. -/
def spaceJoin : List PStr → PStr
  | [] => []
  | [t] => t
  | t :: ts => t ++ ' ' :: spaceJoin ts

/-- Function `normalize_text` from `evaulate_final5.py`: falsy (empty) input maps
to `""`; otherwise lower-case, remove the punctuation characters, and
re-join the whitespace-split tokens with single spaces. -/
def normalize_text (s : PStr) : PStr :=
  if s.isEmpty then []
  else spaceJoin (pySplit ((pyLower s).filter (fun c => !isPunct c)))

/-- The token lists compared by `calculate_f1`:
`normalize_text(s).split()`. -/
def answerTokens (s : PStr) : List PStr := pySplit (normalize_text s)

/-- Python `sum((Counter(pred) & Counter(truth)).values())`: the number of
common tokens counted with multiplicity, i.e. the cardinality of the
multiset intersection. -/
def commonTokenCount (pred truth : List PStr) : ℕ :=
  Multiset.card ((pred : Multiset PStr) ∩ (truth : Multiset PStr))

/-- Function `calculate_f1` from `evaulate_final5.py`; `int(pred == truth)` in
the empty case is 1 when both token lists are empty and 0 otherwise. -/
def calculate_f1 (prediction ground_truth : PStr) : ℚ :=
  let pred_tokens := answerTokens prediction
  let truth_tokens := answerTokens ground_truth
  if pred_tokens.length = 0 ∨ truth_tokens.length = 0 then
    if pred_tokens = truth_tokens then 1 else 0
  else
    let num_same := commonTokenCount pred_tokens truth_tokens
    if num_same = 0 then 0
    else
      let precision : ℚ := (num_same : ℚ) / (pred_tokens.length : ℚ)
      let recallScore : ℚ := (num_same : ℚ) / (truth_tokens.length : ℚ)
      2 * precision * recallScore / (precision + recallScore)

/-- Function `calculate_em` from `evaulate_final5.py`. -/
def calculate_em (prediction ground_truth : PStr) : ℚ :=
  if normalize_text prediction = normalize_text ground_truth then 1 else 0

/-- What the outside world hands one iteration of the question loop:
either the two LLM answers with their measured latencies (`.ok`), or
the message of the exception the iteration raised (`.error`). -/
inductive QAttempt where
  | ok (res_b res_c : PStr) (latency_b latency_c : ℚ)
  | error (msg : PStr)

/-- The per-question variables the loop body leaves behind, which are
then written into the log row. -/
structure QRecord where
  res_b : PStr
  res_c : PStr
  f1_b : ℚ
  em_b : ℚ
  latency_b : ℚ
  f1_c : ℚ
  em_c : ℚ
  latency_c : ℚ
  tps : ℚ
  error_status : PStr

/-- One iteration of the question loop of `run_final_evaluation`
(lines 116-149): the `try` block computes answers, F1/EM scores,
latencies and the tokens-per-second approximation; the `except` block
sets both answers to `"ERROR"`, every score to 0 and records the
exception message. -/
def evalQuestion (ground_truth : PStr) : QAttempt → QRecord
  | .ok res_b res_c latency_b latency_c =>
      { res_b := res_b
        res_c := res_c
        f1_b := calculate_f1 res_b ground_truth
        em_b := calculate_em res_b ground_truth
        latency_b := latency_b
        f1_c := calculate_f1 res_c ground_truth
        em_c := calculate_em res_c ground_truth
        latency_c := latency_c
        tps := if 0 < latency_c then
                 ((pySplit res_c).length : ℚ) * (13 / 10) / latency_c
               else 0
        error_status := "None".data }
  | .error msg =>
      { res_b := "ERROR".data
        res_c := "ERROR".data
        f1_b := 0
        em_b := 0
        latency_b := 0
        f1_c := 0
        em_c := 0
        latency_c := 0
        tps := 0
        error_status := msg }

/-- The question loop for one model: every question is processed exactly
once (an erroring question appends its log row and the loop moves on to
the next question — no retry, no abort). -/
def runQuestionLoop (items : List (PStr × QAttempt)) : List QRecord :=
  items.foldl (fun logs item => logs ++ [evalQuestion item.1 item.2]) []

/-! ### CSV encoding detection (`load_eval_set_from_csv` vs the
`pd.read_csv(..., encoding='cp1252')` readers) -/

/-- The encodings the scripts mention. -/
inductive Enc where
  | utf8sig
  | cp1252
  | latin1
deriving DecidableEq

/-- Constant `encodings_to_try = ['utf-8-sig', 'cp1252', 'latin-1']` from
`load_eval_set_from_csv`. -/
def encodings_to_try : List Enc := [Enc.utf8sig, Enc.cp1252, Enc.latin1]

/-- A decoder environment: for each encoding, what decoding the file's
bytes yields (`none` models a `UnicodeDecodeError`). -/
abbrev Decoder := Enc → Option PStr

/-- The encoding-detection loop of `load_eval_set_from_csv`: try each
encoding in order, keep the first successful decoding with its
encoding, `none` when all fail. -/
def findEncoding (dec : Decoder) : List Enc → Option (Enc × PStr)
  | [] => none
  | e :: rest =>
      match dec e with
      | some content => some (e, content)
      | none => findEncoding dec rest

/-- The CSV read of `evaluate_reranker4.load_data` and of
`run_hybrid_evaluation` in `evaluate_retriever_exact_match6.py`:
`pd.read_csv(CSV_PATH, sep=';', encoding='cp1252')` — one fixed
encoding, failure propagates as an exception. -/
def readCsvCp1252 (dec : Decoder) : Option PStr := dec Enc.cp1252

/-- Modelled from Python's built-in `latin-1` codec (not part of this
repository): every byte decodes to the code point of the same value, so
decoding is total on arbitrary byte sequences. -/
def latin1Decode (bytes : List (Fin 256)) : PStr :=
  bytes.map (fun b => Char.ofNat b.val)

/-- The decoder environment of a concrete file on disk: `utf-8-sig` and
`cp1252` may fail in arbitrary ways (they are abstract), while
`latin-1` always succeeds on the file's bytes. -/
def fileDecoder (du dc : List (Fin 256) → Option PStr) (bytes : List (Fin 256)) : Decoder :=
  fun e =>
    match e with
    | Enc.utf8sig => du bytes
    | Enc.cp1252 => dc bytes
    | Enc.latin1 => some (latin1Decode bytes)

/-- The guard `if not file_content:` before the
"The file could not be read in any format!" message in
`load_eval_set_from_csv`: `file_content` is still `None` when every
encoding failed, and it is the (falsy when empty) `readlines()` result
when one succeeded — an empty decoded file leaves `file_content = []`,
which is falsy, so the guard also fires then. -/
def cannot_read_branch_fires (dec : Decoder) : Bool :=
  match findEncoding dec encodings_to_try with
  | none => true
  | some (_, content) => content.isEmpty

end RagEval

/-! ## Theorems -/

namespace RagEval

/-- Predicate `pyStartsWith t r` decides whether `t` is an initial segment of `r`. -/
theorem pyStartsWith_iff (t : PStr) : ∀ r : PStr,
    pyStartsWith t r = true ↔ ∃ post, r = t ++ post := by
  induction t with
  | nil =>
      intro r
      simp [pyStartsWith]
  | cons a ts ih =>
      intro r
      cases r with
      | nil => simp [pyStartsWith]
      | cons b rs =>
          simp only [pyStartsWith, Bool.and_eq_true, beq_iff_eq, ih rs]
          constructor
          · rintro ⟨rfl, post, rfl⟩
            exact ⟨post, rfl⟩
          · rintro ⟨post, h⟩
            rw [List.cons_append] at h
            injection h with h1 h2
            exact ⟨h1.symm, post, h2⟩

/-- Predicate `pySubstr t r` decides Python's `t in r`: `t` occurs contiguously
inside `r`. -/
theorem pySubstr_iff (t : PStr) : ∀ r : PStr,
    pySubstr t r = true ↔ ∃ pre post, r = pre ++ t ++ post := by
  intro r
  induction r with
  | nil =>
      simp only [pySubstr, pyStartsWith_iff]
      constructor
      · rintro ⟨post, h⟩
        exact ⟨[], post, h⟩
      · rintro ⟨pre, post, h⟩
        rcases List.append_eq_nil.mp h.symm with ⟨h2, hpost⟩
        rcases List.append_eq_nil.mp h2 with ⟨hpre, ht⟩
        exact ⟨[], by simp [ht]⟩
  | cons c rs ih =>
      simp only [pySubstr, Bool.or_eq_true, pyStartsWith_iff, ih]
      constructor
      · rintro (⟨post, h⟩ | ⟨pre, post, h⟩)
        · exact ⟨[], post, by simpa using h⟩
        · exact ⟨c :: pre, post, by simp [h]⟩
      · rintro ⟨pre, post, h⟩
        cases pre with
        | nil => exact Or.inl ⟨post, by simpa using h⟩
        | cons x xs =>
            simp only [List.cons_append] at h
            injection h with h1 h2
            exact Or.inr ⟨xs, post, h2⟩

/-- C4 (counterexample): `check_source_match` accepts the pair
`("abc.md", "abc")` although the two normalised filenames differ, so it
is not an equality test. -/
theorem check_source_match_not_an_equality :
    check_source_match (some "abc.md".data) (some "abc".data) = true
    ∧ normalize_filename (some "abc.md".data) ≠ normalize_filename (some "abc".data) := by
  constructor
  · decide
  · decide

/-- C4 (amended): `check_source_match` returns `True` exactly when one
of the two normalised filenames (basename, stripped, lower-cased)
occurs as a contiguous substring of the other. -/
theorem check_source_match_iff_substring (t r : Option PStr) :
    check_source_match t r = true ↔
      (∃ pre post, normalize_filename r = pre ++ normalize_filename t ++ post)
      ∨ (∃ pre post, normalize_filename t = pre ++ normalize_filename r ++ post) := by
  simp only [check_source_match, Bool.or_eq_true, pySubstr_iff]

/-- C1: with a path column, a retrieved chunk is a hit iff its source
matches the target per `check_source_match` or its ROUGE-L f-measure
against the ground-truth answer is at least `SEMANTIC_THRESHOLD = 0.3`;
without a path column, a chunk is a hit iff the semantic condition
alone holds. -/
theorem hybrid_hit_condition (target : Option PStr) (d : RDoc) :
    (is_hit true target d = true ↔
      (check_source_match target (some d.source) = true ∨ SEMANTIC_THRESHOLD ≤ d.sem))
    ∧ (is_hit false target d = true ↔ SEMANTIC_THRESHOLD ≤ d.sem) := by
  constructor
  · by_cases hc : check_source_match target (some d.source) = true <;>
      by_cases hs : SEMANTIC_THRESHOLD ≤ d.sem <;>
        simp [is_hit, hc, hs]
  · by_cases hs : SEMANTIC_THRESHOLD ≤ d.sem <;> simp [is_hit, hs]

/-- Empty targets: `pySubstr [] r` always holds. -/
theorem pySubstr_nil (r : PStr) : pySubstr [] r = true := by
  cases r <;> simp [pySubstr, pyStartsWith]

/-- C9: an empty-string or non-string target cell normalises to `""`,
which is a substring of every retrieved filename, so
`check_source_match` accepts every retrieved path; consequently, with a
path column present, a question with such a target cell and a nonempty
retrieval list is a hit at rank 1 (0-based first-hit rank 0). -/
theorem empty_target_always_matches (p : Option PStr) (q : HQuestion)
    (hq : q.docs ≠ []) (ht : q.target = none ∨ q.target = some []) :
    check_source_match none p = true
    ∧ check_source_match (some []) p = true
    ∧ firstHitRank true q.target q.docs = some 0 := by
  refine ⟨?_, ?_, ?_⟩
  · simp [check_source_match, normalize_filename, pySubstr_nil]
  · simp [check_source_match, normalize_filename, pyBasename, pyStrip, pyLower, pySubstr_nil]
  · obtain ⟨d, ds, hd⟩ := List.exists_cons_of_ne_nil hq
    rw [hd]
    have hmatch : check_source_match q.target (some d.source) = true := by
      rcases ht with h | h <;>
        simp [h, check_source_match, normalize_filename, pyBasename, pyStrip, pyLower,
          pySubstr_nil]
    simp [firstHitRank, is_hit, hmatch]

/-- C9 witness at a concrete question. -/
theorem empty_target_always_matches_witness :
    check_source_match none (some "guide.md".data) = true
    ∧ check_source_match (some []) (some "guide.md".data) = true
    ∧ firstHitRank true none [RDoc.mk "guide.md".data 0] = some 0 :=
  empty_target_always_matches (some "guide.md".data)
    (HQuestion.mk none [RDoc.mk "guide.md".data 0])
    (List.cons_ne_nil _ _) (Or.inl rfl)

/-- C7 (counterexample): the CSV readers of `evaluate_reranker4.py` and
`evaluate_retriever_exact_match6.py` use the single fixed encoding
`cp1252` and do not fall back: on a file that only `latin-1` decodes,
the first-successful-encoding procedure of `load_eval_set_from_csv`
succeeds while the fixed-encoding read fails. -/
theorem fixed_encoding_reader_does_not_detect :
    readCsvCp1252 (fun e => if e = Enc.latin1 then some [] else none) = none
    ∧ (findEncoding (fun e => if e = Enc.latin1 then some [] else none)
        encodings_to_try).isSome = true := by
  constructor
  · rfl
  · rfl

/-- The detection loop of `load_eval_set_from_csv` returns the first
encoding of the list whose decoding succeeds, with its content. -/
theorem findEncoding_eq_find (dec : Decoder) : ∀ l : List Enc,
    findEncoding dec l =
      (l.find? (fun e => (dec e).isSome)).bind (fun e => (dec e).map (fun c => (e, c))) := by
  intro l
  induction l with
  | nil => rfl
  | cons e rest ih =>
      cases h : dec e with
      | none => simp [findEncoding, List.find?_cons, h, ih]
      | some c => simp [findEncoding, List.find?_cons, h]

/-- C7 (amended): `load_eval_set_from_csv` tries
`['utf-8-sig', 'cp1252', 'latin-1']` in order and uses the first
encoding that decodes without error; the readers of
`evaluate_reranker4.py` and `evaluate_retriever_exact_match6.py`
instead read with the single fixed encoding `cp1252`. -/
theorem encoding_detection_amended (dec : Decoder) :
    findEncoding dec encodings_to_try =
      (encodings_to_try.find? (fun e => (dec e).isSome)).bind
        (fun e => (dec e).map (fun c => (e, c)))
    ∧ readCsvCp1252 dec = dec Enc.cp1252 :=
  ⟨findEncoding_eq_find dec encodings_to_try, rfl⟩

/-- When the detection loop succeeds, the "could not be read" guard
reduces to the truthiness of the decoded content. -/
theorem cannot_read_of_some (dec : Decoder) (e : Enc) (content : PStr)
    (h : findEncoding dec encodings_to_try = some (e, content)) :
    cannot_read_branch_fires dec = content.isEmpty := by
  simp [cannot_read_branch_fires, h]

/-- C10 (counterexample): an existing empty file refutes the claim —
every decoder succeeds on the empty byte sequence with empty content,
so the detection loop succeeds, yet the truthiness guard
`if not file_content:` fires the "could not be read" branch because
`readlines()` of an empty file is the falsy `[]`. -/
theorem cannot_read_branch_reachable :
    (findEncoding (fileDecoder (fun _ => some []) (fun _ => some []) [])
      encodings_to_try).isSome = true
    ∧ cannot_read_branch_fires (fileDecoder (fun _ => some []) (fun _ => some []) [])
      = true :=
  ⟨rfl, rfl⟩

/-- C10 (amended): `latin-1` decodes every byte sequence (each byte
maps to the code point of its value), so whatever the `utf-8-sig` and
`cp1252` decoders do on the file's bytes, the encoding-detection loop
of `load_eval_set_from_csv` always succeeds; the branch printing
"The file could not be read in any format!" is nevertheless guarded by
the truthiness test `if not file_content:`, so it fires exactly when
the first successful decoding has empty content (an existing empty
file), and only for files with nonempty decoded content does the
function proceed to parse. -/
theorem latin1_loop_succeeds_guard_checks_content
    (du dc : List (Fin 256) → Option PStr) (bytes : List (Fin 256)) :
    (findEncoding (fileDecoder du dc bytes) encodings_to_try).isSome = true
    ∧ (cannot_read_branch_fires (fileDecoder du dc bytes) = true ↔
        ∃ e, findEncoding (fileDecoder du dc bytes) encodings_to_try = some (e, [])) := by
  have hsome : ∃ x, findEncoding (fileDecoder du dc bytes) encodings_to_try = some x := by
    cases hdu : du bytes <;> cases hdc : dc bytes <;>
      simp [findEncoding, encodings_to_try, fileDecoder, hdu, hdc]
  obtain ⟨⟨e0, c0⟩, hfe⟩ := hsome
  constructor
  · rw [hfe]
    rfl
  · rw [cannot_read_of_some _ _ _ hfe, hfe]
    constructor
    · intro hc
      rw [List.isEmpty_iff.mp hc] at hfe ⊢
      exact ⟨e0, rfl⟩
    · rintro ⟨e, he⟩
      injection he with h1
      rw [Prod.mk.injEq] at h1
      rw [h1.2]
      rfl

/-- The increment-if accumulator loop counts the satisfying elements. -/
theorem foldl_count_if {α : Type} (p : α → Bool) : ∀ (l : List α) (n : ℕ),
    l.foldl (fun acc x => if p x then acc + 1 else acc) n = n + l.countP p := by
  intro l
  induction l with
  | nil => intro n; simp
  | cons a l ih =>
      intro n
      cases ha : p a with
      | true => simp [ha, ih, List.countP_cons]; omega
      | false => simp [ha, ih, List.countP_cons]

/-- Counting with `countP` is monotone in the predicate. -/
theorem countP_le_countP {α : Type} (p q : α → Bool) :
    ∀ l : List α, (∀ a ∈ l, p a = true → q a = true) → l.countP p ≤ l.countP q := by
  intro l
  induction l with
  | nil => intro _; simp
  | cons a l ih =>
      intro h
      rw [List.countP_cons, List.countP_cons]
      have h1 := ih (fun b hb => h b (List.mem_cons_of_mem a hb))
      have h2 : (if p a = true then 1 else 0) ≤ (if q a = true then 1 else 0) := by
        cases ha : p a with
        | false => simp [ha]
        | true => simp [ha, h a (List.mem_cons_self a l) ha]
      exact Nat.add_le_add h1 h2

/-- The hits accumulator of `evaluate_db` counts the questions whose
`match_found` flag is set. -/
theorem hitsAt_eq_countP (data : List EvalItem) (k : ℕ) :
    hitsAt data k = data.countP (fun it => match_found it k) := by
  have h := foldl_count_if (fun it => match_found it k) data 0
  simpa [hitsAt] using h

/-- Enlarging the cut-off preserves a match: the top-k lists are nested
prefixes of one ranked list. -/
theorem match_found_mono (item : EvalItem) {k k' : ℕ} (hkk : k ≤ k')
    (h : match_found item k = true) : match_found item k' = true := by
  simp only [match_found, List.any_eq_true] at h ⊢
  obtain ⟨r, hr, hm⟩ := h
  refine ⟨r, ?_, hm⟩
  have heq : (item.retrieved.map pyBasename).take k
      = ((item.retrieved.map pyBasename).take k').take k := by
    rw [List.take_take, Nat.min_eq_left hkk]
  rw [heq] at hr
  exact List.mem_of_mem_take hr

/-- C2: for every tested cut-off `k`, the hits accumulator of
`evaluate_db` counts exactly the questions whose top-k retrieved chunks
contain a match for the source document — each question at most once —
and the reported Recall@k is that count divided by the number of
questions, hence a value in [0, 1]. -/
theorem recallAt_is_hit_fraction (data : List EvalItem) (k : ℕ)
    (hk : k ∈ K_VALUES) (hne : data ≠ []) :
    hitsAt data k = (data.filter (fun it => match_found it k)).length
    ∧ hitsAt data k ≤ data.length
    ∧ recallAt data k
        = ((data.filter (fun it => match_found it k)).length : ℚ) / (data.length : ℚ)
    ∧ 0 ≤ recallAt data k ∧ recallAt data k ≤ 1 := by
  have hcount := hitsAt_eq_countP data k
  have hfilter : data.countP (fun it => match_found it k)
      = (data.filter (fun it => match_found it k)).length := by
    simp [List.countP_eq_length_filter]
  have hle : hitsAt data k ≤ data.length := by
    rw [hcount]
    exact List.countP_le_length _
  have hlen : 0 < data.length := List.length_pos.mpr hne
  refine ⟨by rw [hcount, hfilter], hle, by rw [recallAt, hcount, hfilter], ?_, ?_⟩
  · unfold recallAt
    exact div_nonneg (Nat.cast_nonneg _) (Nat.cast_nonneg _)
  · unfold recallAt
    rw [div_le_one (by exact_mod_cast hlen)]
    exact_mod_cast hle

/-- C2 witness at a one-question evaluation. -/
theorem recallAt_is_hit_fraction_witness :
    hitsAt [EvalItem.mk "a.md".data ["a.md".data]] 1 ≤ 1
    ∧ (0 : ℚ) ≤ recallAt [EvalItem.mk "a.md".data ["a.md".data]] 1
    ∧ recallAt [EvalItem.mk "a.md".data ["a.md".data]] 1 ≤ 1 := by
  have h := recallAt_is_hit_fraction [EvalItem.mk "a.md".data ["a.md".data]] 1
    (by decide) (List.cons_ne_nil _ _)
  exact ⟨h.2.1, h.2.2.2.1, h.2.2.2.2⟩

/-- The rank loop with its accumulator is the first-hit index shifted
by the starting rank. -/
theorem scanDocs_eq_firstHitRank_add (pc : Bool) (t : Option PStr) :
    ∀ (l : List RDoc) (n : ℕ),
      scanDocs pc t l n = (firstHitRank pc t l).map (fun i => i + n) := by
  intro l
  induction l with
  | nil => intro n; rfl
  | cons d ds ih =>
      intro n
      by_cases h : is_hit pc t d = true
      · simp [scanDocs, firstHitRank, h]
      · simp only [scanDocs, firstHitRank, h, if_false, Bool.false_eq_true]
        rw [ih (n + 1)]
        cases firstHitRank pc t ds with
        | none => simp
        | some i => simp; omega

/-- Starting at rank 0 the loop computes exactly the first-hit index. -/
theorem scanDocs_zero (pc : Bool) (t : Option PStr) (l : List RDoc) :
    scanDocs pc t l 0 = firstHitRank pc t l := by
  rw [scanDocs_eq_firstHitRank_add]
  cases firstHitRank pc t l <;> simp

/-- Closed form of the accumulators after folding the question loop:
`hits_1` counts the questions whose first hit is at rank 0, `hits_3`
counts the questions with any hit, and `mrr_sum` adds one reciprocal
rank per question. -/
theorem run_hybrid_foldl (pc : Bool) : ∀ (qs : List HQuestion) (st : HState),
    qs.foldl (process_question pc) st =
      { hits_1 := st.hits_1
          + qs.countP (fun q => decide (firstHitRank pc q.target q.docs = some 0))
        hits_3 := st.hits_3 + qs.countP (fun q => (firstHitRank pc q.target q.docs).isSome)
        mrr_sum := st.mrr_sum + (qs.map (reciprocalRank pc)).sum } := by
  intro qs
  induction qs with
  | nil => intro st; simp
  | cons q qs ih =>
      intro st
      rw [List.foldl_cons, ih]
      cases hfr : firstHitRank pc q.target q.docs with
      | none =>
          simp only [process_question, scanDocs_zero, hfr, List.countP_cons, List.map_cons,
            List.sum_cons, reciprocalRank, HState.mk.injEq]
          refine ⟨by simp, by simp, by ring⟩
      | some rank =>
          simp only [process_question, scanDocs_zero, hfr, List.countP_cons, List.map_cons,
            List.sum_cons, reciprocalRank, HState.mk.injEq]
          refine ⟨?_, ?_, by ring⟩
          · by_cases hrank : rank = 0 <;> simp [hrank] <;> omega
          · simp; omega

/-- C8 second half helper: the recorded rank, when present, is the index
of the first document that is a hit; every earlier document is a miss. -/
theorem firstHitRank_spec (pc : Bool) (t : Option PStr) :
    ∀ (l : List RDoc) (i : ℕ), firstHitRank pc t l = some i →
      (∃ d, l[i]? = some d ∧ is_hit pc t d = true)
      ∧ ∀ j, j < i → ∀ dj, l[j]? = some dj → is_hit pc t dj = false := by
  intro l
  induction l with
  | nil => intro i h; simp [firstHitRank] at h
  | cons d ds ih =>
      intro i h
      by_cases hd : is_hit pc t d = true
      · simp only [firstHitRank, hd, if_true] at h
        injection h with h0
        subst h0
        exact ⟨⟨d, by simp, hd⟩, fun j hj => absurd hj (Nat.not_lt_zero j)⟩
      · simp only [firstHitRank, hd, if_false, Bool.false_eq_true] at h
        cases hds : firstHitRank pc t ds with
        | none => rw [hds] at h; simp at h
        | some i' =>
            rw [hds] at h
            simp only [Option.map_some'] at h
            injection h with h1
            obtain ⟨⟨d', hd', hhit⟩, hearlier⟩ := ih i' hds
            subst h1
            have hdf : is_hit pc t d = false := by simpa using hd
            refine ⟨⟨d', by simpa using hd', hhit⟩, ?_⟩
            intro j hj dj hdj
            cases j with
            | zero =>
                simp only [List.getElem?_cons_zero, Option.some.injEq] at hdj
                rw [← hdj]
                exact hdf
            | succ j' =>
                exact hearlier j' (by omega) dj (by simpa using hdj)

/-- C3: the reported MRR is the sum over all questions (with or without
a hit) of the reciprocal first-hit rank, divided by the total number of
questions; a question with no hit contributes 0, and the recorded rank
is the rank of the first hit — all earlier retrievals are misses. -/
theorem mrr_is_mean_reciprocal_rank (pc : Bool) (qs : List HQuestion) (hne : qs ≠ []) :
    mrr pc qs = (qs.map (reciprocalRank pc)).sum / (qs.length : ℚ)
    ∧ ∀ (t : Option PStr) (l : List RDoc) (i : ℕ),
        firstHitRank pc t l = some i →
          (∃ d, l[i]? = some d ∧ is_hit pc t d = true)
          ∧ ∀ j, j < i → ∀ dj, l[j]? = some dj → is_hit pc t dj = false := by
  refine ⟨?_, fun t l i h => firstHitRank_spec pc t l i h⟩
  unfold mrr run_hybrid_evaluation
  rw [run_hybrid_foldl]
  simp

/-- C3 witness at a concrete one-question run whose document is a
source match at rank 1. -/
theorem mrr_is_mean_reciprocal_rank_witness :
    mrr true [HQuestion.mk (some "a.md".data) [RDoc.mk "a.md".data 0]]
      = (([HQuestion.mk (some "a.md".data) [RDoc.mk "a.md".data 0]].map
          (reciprocalRank true)).sum) / 1 := by
  have h := mrr_is_mean_reciprocal_rank true
    [HQuestion.mk (some "a.md".data) [RDoc.mk "a.md".data 0]] (List.cons_ne_nil _ _)
  simpa using h.1

/-- C8: Recall is monotone in the cut-off — `hits` and the reported
Recall@k are non-decreasing in k in `evaluate_db`, and in the hybrid
evaluator `hits_1 ≤ hits_3` — because the top-k candidate lists are
nested prefixes of one ranked list and each question counts at most
once per k. -/
theorem recall_monotone_in_k (data : List EvalItem) (k k' : ℕ) (hkk : k ≤ k') :
    hitsAt data k ≤ hitsAt data k'
    ∧ recallAt data k ≤ recallAt data k'
    ∧ ∀ (pc : Bool) (qs : List HQuestion),
        (run_hybrid_evaluation pc qs).hits_1 ≤ (run_hybrid_evaluation pc qs).hits_3 := by
  have hmono : hitsAt data k ≤ hitsAt data k' := by
    rw [hitsAt_eq_countP, hitsAt_eq_countP]
    exact countP_le_countP _ _ data (fun it _ h => match_found_mono it hkk h)
  refine ⟨hmono, ?_, ?_⟩
  · unfold recallAt
    gcongr
  · intro pc qs
    unfold run_hybrid_evaluation
    rw [run_hybrid_foldl]
    simp only [Nat.zero_add]
    exact countP_le_countP _ _ qs (fun q _ h => by rw [of_decide_eq_true h]; rfl)

/-- C8 witness at a concrete two-document retrieval whose match sits at
rank 2. -/
theorem recall_monotone_in_k_witness :
    hitsAt [EvalItem.mk "a.md".data ["b.md".data, "a.md".data]] 1
      ≤ hitsAt [EvalItem.mk "a.md".data ["b.md".data, "a.md".data]] 3
    ∧ (run_hybrid_evaluation true []).hits_1 ≤ (run_hybrid_evaluation true []).hits_3 := by
  have h := recall_monotone_in_k [EvalItem.mk "a.md".data ["b.md".data, "a.md".data]] 1 3
    (by omega)
  exact ⟨h.1, h.2.2 true []⟩

/-- Folding an append-singleton accumulator maps the list in order. -/
theorem foldl_append_singleton {α β : Type} (f : α → β) :
    ∀ (l : List α) (acc : List β),
      l.foldl (fun logs x => logs ++ [f x]) acc = acc ++ l.map f := by
  intro l
  induction l with
  | nil => intro acc; simp
  | cons a l ih => intro acc; simp [ih]

/-- C5: a question whose processing raises is logged with both answers
`"ERROR"`, all F1/EM/latency/tokens-per-second values 0 and the
exception message in the error-status field; the loop appends exactly
one log row per question in order and moves on — no retry, no abort. -/
theorem error_branch_scores_zero (gt msg : PStr) (items : List (PStr × QAttempt)) :
    evalQuestion gt (QAttempt.error msg)
      = QRecord.mk "ERROR".data "ERROR".data 0 0 0 0 0 0 0 msg
    ∧ runQuestionLoop items = items.map (fun it => evalQuestion it.1 it.2)
    ∧ (runQuestionLoop items).length = items.length := by
  refine ⟨rfl, ?_, ?_⟩
  · have h := foldl_append_singleton (fun it : PStr × QAttempt => evalQuestion it.1 it.2) items []
    simpa [runQuestionLoop] using h
  · have h := foldl_append_singleton (fun it : PStr × QAttempt => evalQuestion it.1 it.2) items []
    simp [runQuestionLoop, h]

/-- The multiset-intersection count never exceeds the number of
prediction tokens. -/
theorem commonTokenCount_le_left (a b : List PStr) : commonTokenCount a b ≤ a.length := by
  have h := Multiset.card_le_card (Multiset.inter_le_left (a : Multiset PStr) (b : Multiset PStr))
  simpa [commonTokenCount] using h

/-- The multiset-intersection count never exceeds the number of
ground-truth tokens. -/
theorem commonTokenCount_le_right (a b : List PStr) : commonTokenCount a b ≤ b.length := by
  have h := Multiset.card_le_card (Multiset.inter_le_right (a : Multiset PStr) (b : Multiset PStr))
  simpa [commonTokenCount] using h

/-- In the main branch (both token lists nonempty, common tokens
present) `calculate_f1` is the harmonic-mean formula `2PR/(P+R)`. -/
theorem calculate_f1_formula (p g : PStr)
    (hp : answerTokens p ≠ []) (hg : answerTokens g ≠ [])
    (hn : commonTokenCount (answerTokens p) (answerTokens g) ≠ 0) :
    calculate_f1 p g =
      2 * ((commonTokenCount (answerTokens p) (answerTokens g) : ℚ)
            / ((answerTokens p).length : ℚ))
        * ((commonTokenCount (answerTokens p) (answerTokens g) : ℚ)
            / ((answerTokens g).length : ℚ))
      / ((commonTokenCount (answerTokens p) (answerTokens g) : ℚ)
            / ((answerTokens p).length : ℚ)
          + (commonTokenCount (answerTokens p) (answerTokens g) : ℚ)
            / ((answerTokens g).length : ℚ)) := by
  simp only [calculate_f1]
  rw [if_neg, if_neg hn]
  exact not_or.mpr
    ⟨fun h => hp (List.length_eq_zero.mp h), fun h => hg (List.length_eq_zero.mp h)⟩

/-- C6: `calculate_f1` is the harmonic mean of token precision and
recall over the normalised (lower-cased, punctuation-free,
whitespace-split) token lists, with common tokens counted with
multiplicity by multiset intersection; it is 1 when both token lists
are empty, 0 when exactly one is empty or (both nonempty and) no
common token exists, and it always lies in [0, 1]. -/
theorem calculate_f1_is_token_f1 (p g : PStr) :
    (0 ≤ calculate_f1 p g ∧ calculate_f1 p g ≤ 1)
    ∧ (answerTokens p = [] ∧ answerTokens g = [] → calculate_f1 p g = 1)
    ∧ ((answerTokens p = [] ∧ answerTokens g ≠ [])
        ∨ (answerTokens p ≠ [] ∧ answerTokens g = []) → calculate_f1 p g = 0)
    ∧ (answerTokens p ≠ [] → answerTokens g ≠ []
        → commonTokenCount (answerTokens p) (answerTokens g) = 0 → calculate_f1 p g = 0)
    ∧ (answerTokens p ≠ [] → answerTokens g ≠ []
        → commonTokenCount (answerTokens p) (answerTokens g) ≠ 0
        → calculate_f1 p g =
            2 * ((commonTokenCount (answerTokens p) (answerTokens g) : ℚ)
                  / ((answerTokens p).length : ℚ))
              * ((commonTokenCount (answerTokens p) (answerTokens g) : ℚ)
                  / ((answerTokens g).length : ℚ))
            / ((commonTokenCount (answerTokens p) (answerTokens g) : ℚ)
                  / ((answerTokens p).length : ℚ)
                + (commonTokenCount (answerTokens p) (answerTokens g) : ℚ)
                  / ((answerTokens g).length : ℚ))) := by
  have h_both : answerTokens p = [] ∧ answerTokens g = [] → calculate_f1 p g = 1 := by
    rintro ⟨hp, hg⟩
    simp [calculate_f1, hp, hg]
  have h_one : (answerTokens p = [] ∧ answerTokens g ≠ [])
      ∨ (answerTokens p ≠ [] ∧ answerTokens g = []) → calculate_f1 p g = 0 := by
    rintro (⟨hp, hg⟩ | ⟨hp, hg⟩)
    · have : answerTokens p ≠ answerTokens g := by rw [hp]; exact fun h => hg h.symm
      simp [calculate_f1, hp, hg, this]
    · have : answerTokens p ≠ answerTokens g := by rw [hg]; exact hp
      simp [calculate_f1, hp, hg, this]
  have h_zero : answerTokens p ≠ [] → answerTokens g ≠ []
      → commonTokenCount (answerTokens p) (answerTokens g) = 0 → calculate_f1 p g = 0 := by
    intro hp hg hn
    simp only [calculate_f1]
    rw [if_neg, if_pos hn]
    exact not_or.mpr
      ⟨fun h => hp (List.length_eq_zero.mp h), fun h => hg (List.length_eq_zero.mp h)⟩
  have h_bounds : 0 ≤ calculate_f1 p g ∧ calculate_f1 p g ≤ 1 := by
    by_cases hp : answerTokens p = []
    · by_cases hg : answerTokens g = []
      · rw [h_both ⟨hp, hg⟩]; norm_num
      · rw [h_one (Or.inl ⟨hp, hg⟩)]; norm_num
    · by_cases hg : answerTokens g = []
      · rw [h_one (Or.inr ⟨hp, hg⟩)]; norm_num
      · by_cases hn : commonTokenCount (answerTokens p) (answerTokens g) = 0
        · rw [h_zero hp hg hn]; norm_num
        · rw [calculate_f1_formula p g hp hg hn]
          have hnq : 0 < (commonTokenCount (answerTokens p) (answerTokens g) : ℚ) := by
            exact_mod_cast Nat.pos_of_ne_zero hn
          have hovera : (0 : ℚ) < ((answerTokens p).length : ℚ) := by
            exact_mod_cast List.length_pos.mpr hp
          have hoverb : (0 : ℚ) < ((answerTokens g).length : ℚ) := by
            exact_mod_cast List.length_pos.mpr hg
          have hPpos : 0 < (commonTokenCount (answerTokens p) (answerTokens g) : ℚ)
              / ((answerTokens p).length : ℚ) := div_pos hnq hovera
          have hRpos : 0 < (commonTokenCount (answerTokens p) (answerTokens g) : ℚ)
              / ((answerTokens g).length : ℚ) := div_pos hnq hoverb
          have hP1 : (commonTokenCount (answerTokens p) (answerTokens g) : ℚ)
              / ((answerTokens p).length : ℚ) ≤ 1 := by
            rw [div_le_one hovera]
            exact_mod_cast commonTokenCount_le_left (answerTokens p) (answerTokens g)
          have hR1 : (commonTokenCount (answerTokens p) (answerTokens g) : ℚ)
              / ((answerTokens g).length : ℚ) ≤ 1 := by
            rw [div_le_one hoverb]
            exact_mod_cast commonTokenCount_le_right (answerTokens p) (answerTokens g)
          set P := (commonTokenCount (answerTokens p) (answerTokens g) : ℚ)
              / ((answerTokens p).length : ℚ) with hPdef
          set R := (commonTokenCount (answerTokens p) (answerTokens g) : ℚ)
              / ((answerTokens g).length : ℚ) with hRdef
          have hPR : 0 < P + R := add_pos hPpos hRpos
          constructor
          · exact div_nonneg
              (mul_nonneg (mul_nonneg (by norm_num) hPpos.le) hRpos.le) hPR.le
          · rw [div_le_one hPR]
            nlinarith [mul_nonneg (sub_nonneg.mpr hP1) hRpos.le,
              mul_nonneg (sub_nonneg.mpr hR1) hPpos.le]
  exact ⟨h_bounds, h_both, h_one, h_zero, fun hp hg hn => calculate_f1_formula p g hp hg hn⟩

/-- C6 witness: the cases of `calculate_f1` evaluated at concrete
answer strings. -/
theorem calculate_f1_is_token_f1_witness :
    calculate_f1 "".data "".data = 1
    ∧ calculate_f1 "cat".data "".data = 0
    ∧ calculate_f1 "cat".data "dog".data = 0
    ∧ (0 ≤ calculate_f1 "the cat sat".data "the cat ran".data
        ∧ calculate_f1 "the cat sat".data "the cat ran".data ≤ 1) := by
  refine ⟨?_, ?_, ?_, ?_⟩
  · exact (calculate_f1_is_token_f1 "".data "".data).2.1 (by constructor <;> decide)
  · exact (calculate_f1_is_token_f1 "cat".data "".data).2.2.1
      (Or.inr ⟨by decide, by decide⟩)
  · exact (calculate_f1_is_token_f1 "cat".data "dog".data).2.2.2.1
      (by decide) (by decide) (by decide)
  · exact (calculate_f1_is_token_f1 "the cat sat".data "the cat ran".data).1

end RagEval
